import Mathlib

/-!
Verification of the deferred-value resolution and presentation protocol
demonstrated by `src/examples/data-router/src/App.tsx` (the `deferredLoader`
/ `DeferredPage` routes).  The builder (`deferred`) and the renderer
(`Deferred` / `useDeferred` / `isDeferredError`) are part of the repository
but live outside `src/`, so they are modelled from the specification; the
concrete field lists, fallbacks and error texts are taken from the source
file itself.
-/

/-- An error value as observed by the renderer: the message and the
diagnostic detail (the stack), the two pieces `RenderDeferredData` and
`RenderDeferredError` display in `App.tsx` lines 307-328. -/
structure ErrorInfo where
  message : String
  stack : String
deriving DecidableEq, Repr

/-- The eventual outcome of an asynchronous computation: it settles with a
value or fails with an error (the settle/fail contract of §6). -/
inductive Outcome where
  | ok (v : String)
  | err (e : ErrorInfo)
deriving DecidableEq, Repr

/-- Modelled from the spec (§4.1, builder input): a field of the builder's
input mapping is either a critical computation, awaited during
construction (in `deferredLoader` these are the `await new Promise`
fields), or a lazy computation left pending.  `preSettled` records whether
the lazy computation is already settled at the moment observation begins
(the `Promise.resolve` field `lazyResolved` of line 244). -/
inductive FieldInput where
  | critical (comp : Outcome)
  | lazy (comp : Outcome) (preSettled : Bool)
deriving DecidableEq, Repr

/-- Modelled from the spec (§3 `PendingEntry`): the live handle of a lazy
field held by the bundle, carrying the eventual outcome of its
computation and whether it was already settled when observation began. -/
structure PendingEntry where
  outcome : Outcome
  preSettled : Bool
deriving DecidableEq, Repr

/-- Modelled from the spec (§3 `DeferredBundle`): resolved critical fields
and live lazy handles, keyed by field name. -/
structure DeferredBundle where
  critical : List (String × String)
  lazyEntries : List (String × PendingEntry)
deriving DecidableEq, Repr

/-- Modelled from the spec (§7): the error with which bundle construction
fails when a critical field's computation fails, carrying the causing
error. -/
structure BundleConstructionError where
  cause : ErrorInfo
deriving DecidableEq, Repr

/-- Modelled from the spec (§4.1, the `deferred` builder, which is not
under `src/`): awaits the critical computations in field order — the
first failing one aborts construction with a `BundleConstructionError`
carrying its error — and passes every lazy computation through as a live
`PendingEntry` without awaiting it. -/
def buildBundle : List (String × FieldInput) → Except BundleConstructionError DeferredBundle
  | [] => Except.ok ⟨[], []⟩
  | (n, FieldInput.critical (Outcome.ok v)) :: rest =>
    match buildBundle rest with
    | Except.ok b => Except.ok ⟨(n, v) :: b.critical, b.lazyEntries⟩
    | Except.error e => Except.error e
  | (_, FieldInput.critical (Outcome.err e)) :: _ => Except.error ⟨e⟩
  | (n, FieldInput.lazy c p) :: rest =>
    match buildBundle rest with
    | Except.ok b => Except.ok ⟨b.critical, (n, ⟨c, p⟩) :: b.lazyEntries⟩
    | Except.error e => Except.error e

/-- Whether no critical field's computation fails. -/
def criticalsOk (fields : List (String × FieldInput)) : Bool :=
  fields.all fun p =>
    match p.2 with
    | FieldInput.critical (Outcome.err _) => false
    | _ => true

/-- Modelled from the spec (§4.2 state machine): the display state of one
lazy field — the placeholder, or one of the two terminal states. -/
inductive DisplayState where
  | placeholder
  | resolved (v : String)
  | errored (e : ErrorInfo)
deriving DecidableEq, Repr

/-- The terminal display state a settled outcome produces. -/
def terminalOf : Outcome → DisplayState
  | Outcome.ok v => DisplayState.resolved v
  | Outcome.err e => DisplayState.errored e

/-- Modelled from the spec (§4.2, the `Deferred` renderer, not under
`src/`): the renderer's observable state — one display state per lazy
field, plus whether the renderer is still attached (`active`); discarding
it severs observation without touching the bundle. -/
structure Renderer where
  display : List (String × DisplayState)
  active : Bool
deriving DecidableEq, Repr

/-- The display state a lazy entry starts in: an already-settled
computation is displayed terminally from the first moment (line 259 of
`App.tsx`: the fallback of `lazyResolved` says "should not see me!"),
every other entry starts at the placeholder. -/
def initialDisplay (e : PendingEntry) : DisplayState :=
  if e.preSettled then terminalOf e.outcome else DisplayState.placeholder

/-- Modelled from the spec (§4.2): construct the renderer's state from a
bundle — one display per lazy entry, in bundle order, renderer attached. -/
def initRenderer (b : DeferredBundle) : Renderer :=
  { display := b.lazyEntries.map fun p => (p.1, initialDisplay p.2), active := true }

/-- First lazy entry of the bundle with the given field name. -/
def lookupEntry : List (String × PendingEntry) → String → Option PendingEntry
  | [], _ => none
  | p :: rest, n => if p.1 = n then some p.2 else lookupEntry rest n

/-- First display entry with the given field name. -/
def lookupDisplay : List (String × DisplayState) → String → Option DisplayState
  | [], _ => none
  | p :: rest, n => if p.1 = n then some p.2 else lookupDisplay rest n

/-- Apply the settlement of field `name` with outcome `out` to one display
pair: only the pair of that field moves, and only out of the placeholder. -/
def bumpEntry (out : Outcome) (name : String) (p : String × DisplayState) : String × DisplayState :=
  if p.1 = name then
    match p.2 with
    | DisplayState.placeholder => (p.1, terminalOf out)
    | _ => p
  else p

/-- Modelled from the spec (§4.2/§5, the settlement continuation of the
`Deferred` renderer, not under `src/`): when the lazy computation of
`name` settles, a still-attached renderer swaps that field's placeholder
for the terminal state of its outcome; a discarded renderer ignores the
settlement entirely. -/
def settleField (b : DeferredBundle) (r : Renderer) (name : String) : Renderer :=
  if r.active then
    match lookupEntry b.lazyEntries name with
    | some entry => { r with display := r.display.map (bumpEntry entry.outcome name) }
    | none => r
  else r

/-- Modelled from the spec (§5 cancellation): discarding the renderer
disables every continuation; the already-produced display is untouched. -/
def discardRenderer (r : Renderer) : Renderer :=
  { r with active := false }

/-- From `RenderDeferredData` (`App.tsx` lines 307-319): the settled result
of a lazy field is rendered as its value, or — when `isDeferredError`
recognises a captured failure — as the error's message and stack. -/
def renderDeferredData : Outcome → String
  | Outcome.ok v => v
  | Outcome.err e => "Error! " ++ e.message ++ " " ++ e.stack

/-- From `RenderDeferredError` (`App.tsx` lines 321-328): the field-specific
error renderer configured on `lazyError2` shows message and stack. -/
def renderDeferredError (e : ErrorInfo) : String :=
  "Error! " ++ e.message ++ " " ++ e.stack

/-- Modelled from the spec (§4.2 renderer configuration): per lazy field,
a placeholder description and an optional field-specific error renderer
(the `fallback` and `errorBoundary` props of `Deferred` in `App.tsx`
lines 259-280). -/
structure FieldConfig where
  fallback : String
  errorBoundary : Option (ErrorInfo → String)

/-- Modelled from the spec (§4.2): the visible content of one lazy field —
the placeholder until settlement, the rendered value on `resolved`, and on
`errored` the field-specific error renderer when one is configured, the
generic one (`RenderDeferredData`'s error branch) otherwise. -/
def renderField (cfg : FieldConfig) (s : DisplayState) : String :=
  match s with
  | DisplayState.placeholder => cfg.fallback
  | DisplayState.resolved v => v
  | DisplayState.errored e =>
    match cfg.errorBoundary with
    | some f => f e
    | none => renderDeferredData (Outcome.err e)

/-- The builder input of `deferredLoader` (`App.tsx` lines 236-251): two
awaited critical fields, five pending lazy fields of which one is already
resolved and two fail with `"Kaboom!"`. -/
def deferredLoaderFields : List (String × FieldInput) :=
  [("critical1", FieldInput.critical (Outcome.ok "Critical Data 1")),
   ("critical2", FieldInput.critical (Outcome.ok "Critical Data 2")),
   ("lazyResolved", FieldInput.lazy (Outcome.ok "Lazy Data immediately resolved") true),
   ("lazy1", FieldInput.lazy (Outcome.ok "Lazy Data 1") false),
   ("lazy2", FieldInput.lazy (Outcome.ok "Lazy Data 2") false),
   ("lazy3", FieldInput.lazy (Outcome.ok "Lazy Data 3") false),
   ("lazyError1", FieldInput.lazy (Outcome.err ⟨"Kaboom!", ""⟩) false),
   ("lazyError2", FieldInput.lazy (Outcome.err ⟨"Kaboom!", ""⟩) false)]

/-- The bundle `deferredLoader` produces. -/
def deferredLoaderBundle : DeferredBundle :=
  { critical := [("critical1", "Critical Data 1"), ("critical2", "Critical Data 2")],
    lazyEntries :=
      [("lazyResolved", ⟨Outcome.ok "Lazy Data immediately resolved", true⟩),
       ("lazy1", ⟨Outcome.ok "Lazy Data 1", false⟩),
       ("lazy2", ⟨Outcome.ok "Lazy Data 2", false⟩),
       ("lazy3", ⟨Outcome.ok "Lazy Data 3", false⟩),
       ("lazyError1", ⟨Outcome.err ⟨"Kaboom!", ""⟩, false⟩),
       ("lazyError2", ⟨Outcome.err ⟨"Kaboom!", ""⟩, false⟩)] }

/-- The field names a bundle exposes: critical names then lazy names. -/
def bundleFieldNames (b : DeferredBundle) : List String :=
  b.critical.map Prod.fst ++ b.lazyEntries.map Prod.fst

/-- The field names the page displays (`DeferredPage`, lines 253-284):
one region per critical value, one `Deferred` region per lazy field. -/
def displayedFields (b : DeferredBundle) (r : Renderer) : List String :=
  b.critical.map Prod.fst ++ r.display.map Prod.fst

lemma buildBundle_critical_mem :
    ∀ (fields : List (String × FieldInput)) (b : DeferredBundle),
      buildBundle fields = Except.ok b →
      ∀ n c, (n, FieldInput.critical c) ∈ fields →
        ∃ v, c = Outcome.ok v ∧ (n, v) ∈ b.critical := by
  intro fields
  induction fields with
  | nil => intro b _ n c hm; simp at hm
  | cons hd rest ih =>
    obtain ⟨m, fi⟩ := hd
    intro b hb n c hm
    cases fi with
    | critical comp =>
      cases comp with
      | ok v =>
        cases hrest : buildBundle rest with
        | ok b2 =>
          simp only [buildBundle, hrest] at hb
          cases hb
          rw [List.mem_cons] at hm
          rcases hm with hm | hm
          · rcases Prod.mk.injEq .. ▸ hm with ⟨h1, h2⟩
            cases h1
            cases h2
            exact ⟨v, rfl, List.mem_cons_self _ _⟩
          · obtain ⟨w, hw, hmem⟩ := ih b2 hrest n c hm
            exact ⟨w, hw, List.mem_cons_of_mem _ hmem⟩
        | error e =>
          simp only [buildBundle, hrest] at hb
          exact Except.noConfusion hb
      | err e =>
        simp only [buildBundle] at hb
        exact Except.noConfusion hb
    | lazy c0 p0 =>
      cases hrest : buildBundle rest with
      | ok b2 =>
        simp only [buildBundle, hrest] at hb
        cases hb
        rw [List.mem_cons] at hm
        rcases hm with hm | hm
        · simp at hm
        · exact ih b2 hrest n c hm
      | error e =>
        simp only [buildBundle, hrest] at hb
        exact Except.noConfusion hb

lemma buildBundle_lazy_mem :
    ∀ (fields : List (String × FieldInput)) (b : DeferredBundle),
      buildBundle fields = Except.ok b →
      ∀ n c p, (n, FieldInput.lazy c p) ∈ fields →
        (n, PendingEntry.mk c p) ∈ b.lazyEntries := by
  intro fields
  induction fields with
  | nil => intro b _ n c p hm; simp at hm
  | cons hd rest ih =>
    obtain ⟨m, fi⟩ := hd
    intro b hb n c p hm
    cases fi with
    | critical comp =>
      cases comp with
      | ok v =>
        cases hrest : buildBundle rest with
        | ok b2 =>
          simp only [buildBundle, hrest] at hb
          cases hb
          rw [List.mem_cons] at hm
          rcases hm with hm | hm
          · simp at hm
          · exact ih b2 hrest n c p hm
        | error e =>
          simp only [buildBundle, hrest] at hb
          exact Except.noConfusion hb
      | err e =>
        simp only [buildBundle] at hb
        exact Except.noConfusion hb
    | lazy c0 p0 =>
      cases hrest : buildBundle rest with
      | ok b2 =>
        simp only [buildBundle, hrest] at hb
        cases hb
        rw [List.mem_cons] at hm
        rcases hm with hm | hm
        · rcases Prod.mk.injEq .. ▸ hm with ⟨h1, h2⟩
          cases h1
          cases h2
          exact List.mem_cons_self _ _
        · exact List.mem_cons_of_mem _ (ih b2 hrest n c p hm)
      | error e =>
        simp only [buildBundle, hrest] at hb
        exact Except.noConfusion hb

lemma buildBundle_err_of_critical_err :
    ∀ (fields : List (String × FieldInput)) (n : String) (e : ErrorInfo),
      (n, FieldInput.critical (Outcome.err e)) ∈ fields →
      ∃ n2 e2, (n2, FieldInput.critical (Outcome.err e2)) ∈ fields ∧
        buildBundle fields = Except.error ⟨e2⟩ := by
  intro fields
  induction fields with
  | nil => intro n e hm; simp at hm
  | cons hd rest ih =>
    obtain ⟨m, fi⟩ := hd
    intro n e hm
    cases fi with
    | critical comp =>
      cases comp with
      | ok v =>
        have hmr : (n, FieldInput.critical (Outcome.err e)) ∈ rest := by
          rcases List.mem_cons.mp hm with h | h
          · exact absurd h (by simp)
          · exact h
        obtain ⟨n2, e2, hmem, hbb⟩ := ih n e hmr
        refine ⟨n2, e2, List.mem_cons_of_mem _ hmem, ?_⟩
        simp only [buildBundle, hbb]
      | err e0 =>
        exact ⟨m, e0, List.mem_cons_self _ _, rfl⟩
    | lazy c0 p0 =>
      have hmr : (n, FieldInput.critical (Outcome.err e)) ∈ rest := by
        rcases List.mem_cons.mp hm with h | h
        · exact absurd h (by simp)
        · exact h
      obtain ⟨n2, e2, hmem, hbb⟩ := ih n e hmr
      refine ⟨n2, e2, List.mem_cons_of_mem _ hmem, ?_⟩
      simp only [buildBundle, hbb]

lemma buildBundle_ok_of_criticalsOk :
    ∀ (fields : List (String × FieldInput)), criticalsOk fields = true →
      ∃ b, buildBundle fields = Except.ok b := by
  intro fields
  induction fields with
  | nil => intro _; exact ⟨⟨[], []⟩, rfl⟩
  | cons hd rest ih =>
    obtain ⟨m, fi⟩ := hd
    intro h
    have hrest : criticalsOk rest = true := by
      simp only [criticalsOk, List.all_cons, Bool.and_eq_true] at h
      exact h.2
    obtain ⟨b2, hb2⟩ := ih hrest
    cases fi with
    | critical comp =>
      cases comp with
      | ok v =>
        exact ⟨⟨(m, v) :: b2.critical, b2.lazyEntries⟩, by simp only [buildBundle, hb2]⟩
      | err e =>
        exfalso
        simp [criticalsOk] at h
    | lazy c0 p0 =>
      exact ⟨⟨b2.critical, (m, ⟨c0, p0⟩) :: b2.lazyEntries⟩, by simp only [buildBundle, hb2]⟩

lemma buildBundle_names_perm :
    ∀ (fields : List (String × FieldInput)) (b : DeferredBundle),
      buildBundle fields = Except.ok b →
      (bundleFieldNames b).Perm (fields.map Prod.fst) := by
  intro fields
  induction fields with
  | nil =>
    intro b hb
    cases hb
    simp [bundleFieldNames]
  | cons hd rest ih =>
    obtain ⟨m, fi⟩ := hd
    intro b hb
    cases fi with
    | critical comp =>
      cases comp with
      | ok v =>
        cases hrest : buildBundle rest with
        | ok b2 =>
          simp only [buildBundle, hrest] at hb
          cases hb
          simp only [bundleFieldNames, List.map_cons, List.cons_append]
          exact (ih b2 hrest).cons m
        | error e =>
          simp only [buildBundle, hrest] at hb
          exact Except.noConfusion hb
      | err e =>
        simp only [buildBundle] at hb
        exact Except.noConfusion hb
    | lazy c0 p0 =>
      cases hrest : buildBundle rest with
      | ok b2 =>
        simp only [buildBundle, hrest] at hb
        cases hb
        simp only [bundleFieldNames, List.map_cons]
        exact List.perm_middle.trans ((ih b2 hrest).cons m)
      | error e =>
        simp only [buildBundle, hrest] at hb
        exact Except.noConfusion hb

lemma terminalOf_ne_placeholder (o : Outcome) : terminalOf o ≠ DisplayState.placeholder := by
  cases o <;> simp [terminalOf]

lemma bumpEntry_fst (o : Outcome) (n : String) (p : String × DisplayState) :
    (bumpEntry o n p).1 = p.1 := by
  obtain ⟨a, s⟩ := p
  by_cases h : a = n <;> cases s <;> simp [bumpEntry, h]

lemma bumpEntry_idem (o : Outcome) (n : String) (p : String × DisplayState) :
    bumpEntry o n (bumpEntry o n p) = bumpEntry o n p := by
  obtain ⟨a, s⟩ := p
  by_cases h : a = n
  · cases s <;> cases o <;> simp [bumpEntry, h, terminalOf]
  · simp [bumpEntry, h]

lemma bumpEntry_comm (o1 o2 : Outcome) (n m : String) (hnm : n ≠ m)
    (p : String × DisplayState) :
    bumpEntry o1 n (bumpEntry o2 m p) = bumpEntry o2 m (bumpEntry o1 n p) := by
  obtain ⟨a, s⟩ := p
  by_cases h1 : a = n
  · subst h1
    cases s <;> cases o1 <;> simp [bumpEntry, hnm, terminalOf]
  · by_cases h2 : a = m
    · subst h2
      cases s <;> cases o2 <;> simp [bumpEntry, h1, terminalOf]
    · simp [bumpEntry, h1, h2]

lemma settleField_active (b : DeferredBundle) (r : Renderer) (n : String) :
    (settleField b r n).active = r.active := by
  by_cases h : r.active
  · cases hl : lookupEntry b.lazyEntries n <;> simp [settleField, h, hl]
  · simp [settleField, h]

lemma settleField_inactive (b : DeferredBundle) (r : Renderer) (n : String)
    (h : r.active = false) : settleField b r n = r := by
  simp [settleField, h]

lemma settleField_not_found (b : DeferredBundle) (r : Renderer) (n : String)
    (hl : lookupEntry b.lazyEntries n = none) : settleField b r n = r := by
  by_cases h : r.active <;> simp [settleField, h, hl]

lemma settleField_found (b : DeferredBundle) (r : Renderer) (n : String)
    (e : PendingEntry) (h : r.active = true) (hl : lookupEntry b.lazyEntries n = some e) :
    settleField b r n = { r with display := r.display.map (bumpEntry e.outcome n) } := by
  simp [settleField, h, hl]

lemma settleField_idem (b : DeferredBundle) (r : Renderer) (n : String) :
    settleField b (settleField b r n) n = settleField b r n := by
  by_cases h : r.active
  · cases hl : lookupEntry b.lazyEntries n with
    | none => rw [settleField_not_found b r n hl, settleField_not_found b r n hl]
    | some e =>
      rw [settleField_found b r n e h hl]
      rw [settleField_found b _ n e (by simpa using h) hl]
      have hc : bumpEntry e.outcome n ∘ bumpEntry e.outcome n = bumpEntry e.outcome n :=
        funext (bumpEntry_idem e.outcome n)
      simp [List.map_map, hc]
  · have h0 : r.active = false := by simpa using h
    rw [settleField_inactive b r n h0, settleField_inactive b r n h0]

lemma settleField_comm (b : DeferredBundle) (r : Renderer) (n m : String) :
    settleField b (settleField b r n) m = settleField b (settleField b r m) n := by
  by_cases hnm : n = m
  · rw [hnm]
  by_cases h : r.active
  · cases hn : lookupEntry b.lazyEntries n with
    | none =>
      rw [settleField_not_found b r n hn, settleField_not_found b _ n hn]
    | some en =>
      cases hm : lookupEntry b.lazyEntries m with
      | none =>
        rw [settleField_not_found b r m hm, settleField_not_found b _ m hm]
      | some em =>
        rw [settleField_found b r n en h hn, settleField_found b r m em h hm]
        rw [settleField_found b _ m em (by simpa using h) hm]
        rw [settleField_found b _ n en (by simpa using h) hn]
        have hc : bumpEntry em.outcome m ∘ bumpEntry en.outcome n
            = bumpEntry en.outcome n ∘ bumpEntry em.outcome m := by
          funext p
          exact (bumpEntry_comm en.outcome em.outcome n m hnm p).symm
        simp [List.map_map, hc]
  · have h0 : r.active = false := by simpa using h
    rw [settleField_inactive b r n h0, settleField_inactive b r m h0,
      settleField_inactive b r n h0]

lemma lookupDisplay_map_bump_ne (o : Outcome) (n m : String) (hm : m ≠ n) :
    ∀ l : List (String × DisplayState),
      lookupDisplay (l.map (bumpEntry o n)) m = lookupDisplay l m := by
  intro l
  induction l with
  | nil => rfl
  | cons p rest ih =>
    obtain ⟨a, s⟩ := p
    by_cases h : a = m
    · subst h
      simp [lookupDisplay, bumpEntry, hm]
    · simp [lookupDisplay, bumpEntry_fst, h, ih]

lemma lookupDisplay_map_bump_cases (o : Outcome) (n : String) :
    ∀ (l : List (String × DisplayState)) (m : String),
      lookupDisplay (l.map (bumpEntry o n)) m = lookupDisplay l m ∨
        (lookupDisplay l m = some DisplayState.placeholder ∧
          lookupDisplay (l.map (bumpEntry o n)) m = some (terminalOf o)) := by
  intro l
  induction l with
  | nil => intro m; left; rfl
  | cons p rest ih =>
    intro m
    obtain ⟨a, s⟩ := p
    by_cases h : a = m
    · subst h
      by_cases hn : a = n
      · subst hn
        cases s with
        | placeholder =>
          right
          exact ⟨by simp [lookupDisplay], by simp [lookupDisplay, bumpEntry]⟩
        | resolved v => left; simp [lookupDisplay, bumpEntry]
        | errored e => left; simp [lookupDisplay, bumpEntry]
      · left; simp [lookupDisplay, bumpEntry, hn]
    · rcases ih m with h1 | ⟨h1, h2⟩
      · left; simp [lookupDisplay, bumpEntry_fst, h, h1]
      · right
        exact ⟨by simp [lookupDisplay, h, h1],
          by simp [lookupDisplay, bumpEntry_fst, h, h2]⟩

lemma settleField_frame (b : DeferredBundle) (r : Renderer) (n m : String) (hm : m ≠ n) :
    lookupDisplay (settleField b r n).display m = lookupDisplay r.display m := by
  by_cases h : r.active
  · cases hl : lookupEntry b.lazyEntries n with
    | none => rw [settleField_not_found b r n hl]
    | some e =>
      rw [settleField_found b r n e (by simpa using h) hl]
      exact lookupDisplay_map_bump_ne e.outcome n m hm r.display
  · rw [settleField_inactive b r n (by simpa using h)]

lemma settleField_step_cases (b : DeferredBundle) (r : Renderer) (n m : String) :
    lookupDisplay (settleField b r n).display m = lookupDisplay r.display m ∨
      (lookupDisplay r.display m = some DisplayState.placeholder ∧
        ∃ o, lookupDisplay (settleField b r n).display m = some (terminalOf o)) := by
  by_cases h : r.active
  · cases hl : lookupEntry b.lazyEntries n with
    | none => left; rw [settleField_not_found b r n hl]
    | some e =>
      rw [settleField_found b r n e (by simpa using h) hl]
      rcases lookupDisplay_map_bump_cases e.outcome n r.display m with h1 | ⟨h1, h2⟩
      · left; exact h1
      · right; exact ⟨h1, e.outcome, h2⟩
  · left; rw [settleField_inactive b r n (by simpa using h)]

lemma map_fst_map_bump (o : Outcome) (n : String) :
    ∀ l : List (String × DisplayState),
      (l.map (bumpEntry o n)).map Prod.fst = l.map Prod.fst := by
  intro l
  induction l with
  | nil => rfl
  | cons p rest ih => simp [bumpEntry_fst, ih]

lemma settleField_keys (b : DeferredBundle) (r : Renderer) (n : String) :
    (settleField b r n).display.map Prod.fst = r.display.map Prod.fst := by
  by_cases h : r.active
  · cases hl : lookupEntry b.lazyEntries n with
    | none => rw [settleField_not_found b r n hl]
    | some e =>
      rw [settleField_found b r n e (by simpa using h) hl]
      exact map_fst_map_bump e.outcome n r.display
  · rw [settleField_inactive b r n (by simpa using h)]

lemma lookupDisplay_initRenderer :
    ∀ (l : List (String × PendingEntry)) (n : String) (e : PendingEntry),
      lookupEntry l n = some e →
      lookupDisplay (l.map fun p => (p.1, initialDisplay p.2)) n
        = some (initialDisplay e) := by
  intro l
  induction l with
  | nil => intro n e h; exact Option.noConfusion h
  | cons p rest ih =>
    intro n e h
    obtain ⟨a, pe⟩ := p
    by_cases ha : a = n
    · simp [lookupEntry, ha] at h
      subst h
      simp [lookupDisplay, ha]
    · simp only [lookupEntry, if_neg ha] at h
      simp only [List.map_cons, lookupDisplay, if_neg ha]
      exact ih n e h

/-- The `Deferred` configuration of `lazyError1` in `DeferredPage` (lines
271-273): a fallback and no field-specific error renderer. -/
def lazyError1Config : FieldConfig := ⟨"loading (error 1)...", none⟩

/-- The `Deferred` configuration of `lazyError2` in `DeferredPage` (lines
274-280): a fallback, with `RenderDeferredError` as the field-specific
error renderer. -/
def lazyError2Config : FieldConfig := ⟨"loading (error 2)...", some renderDeferredError⟩

/-- A variant of the deferred loader input in which the second critical
computation fails (the spec's failing-critical scenario, §7). -/
def failingCriticalFields : List (String × FieldInput) :=
  [("critical1", FieldInput.critical (Outcome.ok "Critical Data 1")),
   ("critical2", FieldInput.critical (Outcome.err ⟨"Kaboom!", ""⟩)),
   ("lazy1", FieldInput.lazy (Outcome.ok "Lazy Data 1") false)]

lemma initRenderer_keys : ∀ l : List (String × PendingEntry),
    (l.map fun p => (p.1, initialDisplay p.2)).map Prod.fst = l.map Prod.fst := by
  intro l
  induction l with
  | nil => rfl
  | cons p rest ih => simp [ih]

/-- C1: whenever the builder returns a bundle, every critical field of the
input is fully resolved — its computation settled with a value that the
bundle's `critical` mapping records — while every lazy field of the input
is passed through as a still-pending handle carrying its computation
unawaited, regardless of whether that computation will settle or fail. -/
theorem builder_resolves_critical_keeps_lazy
    (fields : List (String × FieldInput)) (b : DeferredBundle)
    (hb : buildBundle fields = Except.ok b) :
    (∀ n c, (n, FieldInput.critical c) ∈ fields →
      ∃ v, c = Outcome.ok v ∧ (n, v) ∈ b.critical) ∧
    (∀ n c p, (n, FieldInput.lazy c p) ∈ fields →
      (n, PendingEntry.mk c p) ∈ b.lazyEntries) :=
  ⟨buildBundle_critical_mem fields b hb, buildBundle_lazy_mem fields b hb⟩

theorem builder_resolves_critical_keeps_lazy_witness :
    (∀ n c, (n, FieldInput.critical c) ∈ deferredLoaderFields →
      ∃ v, c = Outcome.ok v ∧ (n, v) ∈ deferredLoaderBundle.critical) ∧
    (∀ n c p, (n, FieldInput.lazy c p) ∈ deferredLoaderFields →
      (n, PendingEntry.mk c p) ∈ deferredLoaderBundle.lazyEntries) :=
  builder_resolves_critical_keeps_lazy deferredLoaderFields deferredLoaderBundle (by rfl)

/-- C2: a failing critical computation makes bundle construction itself
fail with a `BundleConstructionError` carrying the causing error, and no
bundle is ever produced — so no renderer exists whose display a later lazy
settlement could update. -/
theorem builder_fails_on_critical_failure
    (fields : List (String × FieldInput)) (n : String) (e : ErrorInfo)
    (hm : (n, FieldInput.critical (Outcome.err e)) ∈ fields) :
    (∃ n2 e2, (n2, FieldInput.critical (Outcome.err e2)) ∈ fields ∧
      buildBundle fields = Except.error ⟨e2⟩) ∧
    ∀ b, buildBundle fields ≠ Except.ok b := by
  obtain ⟨n2, e2, hmem, hbb⟩ := buildBundle_err_of_critical_err fields n e hm
  refine ⟨⟨n2, e2, hmem, hbb⟩, fun b hb => ?_⟩
  rw [hbb] at hb
  exact Except.noConfusion hb

theorem builder_fails_on_critical_failure_witness :
    (∃ n2 e2, (n2, FieldInput.critical (Outcome.err e2)) ∈ failingCriticalFields ∧
      buildBundle failingCriticalFields = Except.error ⟨e2⟩) ∧
    ∀ b, buildBundle failingCriticalFields ≠ Except.ok b :=
  builder_fails_on_critical_failure failingCriticalFields "critical2" ⟨"Kaboom!", ""⟩
    (by decide)

/-- C3: when no critical computation fails, bundle construction succeeds
even though lazy computations fail; each lazy failure is captured inside
the bundle as that entry's terminal failed outcome — data the renderer
observes as the `errored` display state, never an exception crossing the
builder/renderer boundary. -/
theorem lazy_failure_captured_as_data
    (fields : List (String × FieldInput)) (hok : criticalsOk fields = true) :
    (∃ b, buildBundle fields = Except.ok b) ∧
    (∀ b n e p, buildBundle fields = Except.ok b →
      (n, FieldInput.lazy (Outcome.err e) p) ∈ fields →
      (n, PendingEntry.mk (Outcome.err e) p) ∈ b.lazyEntries ∧
      terminalOf (Outcome.err e) = DisplayState.errored e) := by
  refine ⟨buildBundle_ok_of_criticalsOk fields hok, ?_⟩
  intro b n e p hb hm
  exact ⟨buildBundle_lazy_mem fields b hb n (Outcome.err e) p hm, rfl⟩

theorem lazy_failure_captured_as_data_witness :
    (∃ b, buildBundle deferredLoaderFields = Except.ok b) ∧
    (∀ b n e p, buildBundle deferredLoaderFields = Except.ok b →
      (n, FieldInput.lazy (Outcome.err e) p) ∈ deferredLoaderFields →
      (n, PendingEntry.mk (Outcome.err e) p) ∈ b.lazyEntries ∧
      terminalOf (Outcome.err e) = DisplayState.errored e) :=
  lazy_failure_captured_as_data deferredLoaderFields (by rfl)

/-- C4: when a lazy field settles to `failed(e)`, its display content is
produced by the field-specific error renderer if one was configured for
the field, and otherwise by the generic error renderer, which shows the
error's message and its diagnostic detail. -/
theorem errored_display_selection (cfg : FieldConfig) (e : ErrorInfo) :
    (∀ f, cfg.errorBoundary = some f →
      renderField cfg (DisplayState.errored e) = f e) ∧
    (cfg.errorBoundary = none →
      renderField cfg (DisplayState.errored e)
        = "Error! " ++ e.message ++ " " ++ e.stack) := by
  constructor
  · intro f hf
    simp [renderField, hf]
  · intro hf
    simp [renderField, hf, renderDeferredData]

theorem errored_display_selection_witness :
    renderField lazyError2Config (DisplayState.errored ⟨"Kaboom!", ""⟩)
        = renderDeferredError ⟨"Kaboom!", ""⟩ ∧
    renderField lazyError1Config (DisplayState.errored ⟨"Kaboom!", ""⟩)
        = "Error! " ++ "Kaboom!" ++ " " ++ "" :=
  ⟨(errored_display_selection lazyError2Config ⟨"Kaboom!", ""⟩).1 renderDeferredError rfl,
   (errored_display_selection lazyError1Config ⟨"Kaboom!", ""⟩).2 rfl⟩

/-- C5: per lazy field the display transitions at most once: settling the
same field a second time changes nothing (both terminal states are
absorbing), and any single settlement step either leaves a field's
display unchanged or moves it from the placeholder to a terminal,
non-placeholder state. -/
theorem display_transitions_at_most_once (b : DeferredBundle) (r : Renderer) (n : String) :
    settleField b (settleField b r n) n = settleField b r n ∧
    ∀ m, lookupDisplay (settleField b r n).display m = lookupDisplay r.display m ∨
      (lookupDisplay r.display m = some DisplayState.placeholder ∧
        ∃ o, lookupDisplay (settleField b r n).display m = some (terminalOf o) ∧
          terminalOf o ≠ DisplayState.placeholder) := by
  refine ⟨settleField_idem b r n, fun m => ?_⟩
  rcases settleField_step_cases b r n m with h | ⟨h1, o, h2⟩
  · exact Or.inl h
  · exact Or.inr ⟨h1, o, h2, terminalOf_ne_placeholder o⟩

/-- C6: the renderer state after settling two lazy fields is independent
of their relative settlement order, so every field's final display state
is as well. -/
theorem settlement_order_independent (b : DeferredBundle) (r : Renderer) (n m : String) :
    settleField b (settleField b r n) m = settleField b (settleField b r m) n :=
  settleField_comm b r n m

/-- C7: the displayed field names are exactly the input's field names —
the union of the critical and lazy names, without duplicates when the
input names are unique — this set is fixed at construction, and
settlement never changes it. -/
theorem displayed_fields_exact (fields : List (String × FieldInput)) (b : DeferredBundle)
    (hb : buildBundle fields = Except.ok b) (hnd : (fields.map Prod.fst).Nodup) :
    (displayedFields b (initRenderer b)).Perm (fields.map Prod.fst) ∧
    (displayedFields b (initRenderer b)).Nodup ∧
    ∀ r n, displayedFields b (settleField b r n) = displayedFields b r := by
  have hperm : (bundleFieldNames b).Perm (fields.map Prod.fst) :=
    buildBundle_names_perm fields b hb
  have hdisp : displayedFields b (initRenderer b) = bundleFieldNames b := by
    have hk := initRenderer_keys b.lazyEntries
    simp [displayedFields, bundleFieldNames, initRenderer, hk]
  refine ⟨hdisp ▸ hperm, hdisp ▸ (hperm.nodup_iff.mpr hnd), fun r n => ?_⟩
  simp [displayedFields, settleField_keys]

theorem displayed_fields_exact_witness :
    (displayedFields deferredLoaderBundle (initRenderer deferredLoaderBundle)).Perm
        (deferredLoaderFields.map Prod.fst) ∧
    (displayedFields deferredLoaderBundle (initRenderer deferredLoaderBundle)).Nodup ∧
    ∀ r n, displayedFields deferredLoaderBundle (settleField deferredLoaderBundle r n)
        = displayedFields deferredLoaderBundle r :=
  displayed_fields_exact deferredLoaderFields deferredLoaderBundle (by rfl) (by decide)

/-- C8: settling a field after the renderer has been discarded changes
nothing — the late settlement is ignored without error — and discarding
itself only clears the observation flag, leaving the already-produced
display (and the bundle's entries, which settlement never touches)
intact. -/
theorem discarded_renderer_ignores_settlement (b : DeferredBundle) (r : Renderer) (n : String) :
    settleField b (discardRenderer r) n = discardRenderer r ∧
    (discardRenderer r).display = r.display :=
  ⟨settleField_inactive b (discardRenderer r) n rfl, rfl⟩

/-- C9: settling one lazy field leaves the display state of every other
field unchanged. -/
theorem settlement_frame (b : DeferredBundle) (r : Renderer) (n m : String) (hm : m ≠ n) :
    lookupDisplay (settleField b r n).display m = lookupDisplay r.display m :=
  settleField_frame b r n m hm

theorem settlement_frame_witness :
    lookupDisplay (settleField deferredLoaderBundle
        (initRenderer deferredLoaderBundle) "lazy1").display "lazy2"
      = lookupDisplay (initRenderer deferredLoaderBundle).display "lazy2" :=
  settlement_frame deferredLoaderBundle (initRenderer deferredLoaderBundle) "lazy1" "lazy2"
    (by decide)

/-- C10: a lazy computation that is already settled when observation
begins is never displayed as the placeholder: the renderer's first and
only display state for that field is the terminal one. -/
theorem preSettled_never_placeholder (b : DeferredBundle) (n : String) (e : PendingEntry)
    (hl : lookupEntry b.lazyEntries n = some e) (hp : e.preSettled = true) :
    lookupDisplay (initRenderer b).display n = some (terminalOf e.outcome) ∧
    terminalOf e.outcome ≠ DisplayState.placeholder := by
  constructor
  · have h := lookupDisplay_initRenderer b.lazyEntries n e hl
    simpa [initRenderer, initialDisplay, hp] using h
  · exact terminalOf_ne_placeholder e.outcome

theorem preSettled_never_placeholder_witness :
    lookupDisplay (initRenderer deferredLoaderBundle).display "lazyResolved"
        = some (terminalOf (Outcome.ok "Lazy Data immediately resolved")) ∧
    terminalOf (Outcome.ok "Lazy Data immediately resolved") ≠ DisplayState.placeholder :=
  preSettled_never_placeholder deferredLoaderBundle "lazyResolved"
    ⟨Outcome.ok "Lazy Data immediately resolved", true⟩ (by rfl) rfl
